import Mathlib

/-!
# Verification of the item-console content-addressed version store

A shallow embedding of the core logic of `src/App.tsx`: the snapshot data
model with its canonical serialization, the localStorage-backed version
store, the bootstrap/repair resolver (`initLocalStorage`), and the three
mutation paths (`writeItemToLocalStorage`, `deleteItemFromLocalStorage`,
`writeItemsToLocalStorage`), together with the JSON import validator
(`parseJson`).

Modelling conventions:

* JavaScript `Map` objects and `localStorage` are insertion-ordered
  key/value association lists (`List (String × _)`).  `Map.set` /
  `localStorage.setItem` replace in place when the key exists and append
  otherwise (`mapInsert`); `Map.delete` removes the keyed entry
  (`mapDelete`); `new Map(entries)` deduplicates keys keeping the first
  position and the last value (`mapOfList`).
* JavaScript numbers that reach an item's `quantity` are modelled as `ℚ`
  (they are produced either by `Number.parseInt` — an integer or `NaN` —
  or by `JSON.parse`, and no float-specific behaviour is relevant to the
  functions embedded here).  The result of `Number.parseInt` is modelled
  as `Option Int`, `none` standing for `NaN`.
* JSON values are the inductive `Jval`.  A JavaScript object's own-property
  enumeration order (used by `Object.entries`, `Object.fromEntries` and
  `JSON.stringify`) lists array-index-like keys first in ascending numeric
  order, followed by the remaining keys in insertion order; `jsObjOrder`
  models the reordering performed when an object is built from entries.
* The host builtins used by the code — `js-sha256`'s `sha256`,
  `Date.parse`, `JSON.stringify` and `JSON.parse` — are external libraries,
  not code of this repository; they are parameters of the embedding,
  collected in the `Env` structure.  Theorems that depend on one of their
  contracts (e.g. that `JSON.parse` inverts `JSON.stringify` on a value the
  program serializes, or that `sha256` is collision-free, as the spec
  assumes) take that contract as an explicit hypothesis at the points
  where it is used.
* `new Date().toISOString()` is the explicit parameter `now`.
* Exceptions (a stored value that fails to parse, a missing key hit by a
  non-null assertion) are the `Res.exn` outcome.  The self-recursive
  bootstrap of `initLocalStorage` is embedded with explicit fuel
  (`initFuel`); `initLocalStorage` runs it with fuel 2, which is proved
  sufficient for every store.
-/

/-- An inventory item: `interface Item { quantity: number; tags: string[] }`. -/
structure Item where
  quantity : ℚ
  tags : List String
deriving DecidableEq

/-- A snapshot:
`interface Version { items: Map<string, Item>; previousVersion: string | null; timestamp: string }`. -/
structure Version where
  items : List (String × Item)
  previousVersion : Option String
  timestamp : String
deriving DecidableEq

/-- JSON values (the shapes produced by `JSON.parse` / fed to `JSON.stringify`). -/
inductive Jval where
  | jnull : Jval
  | jbool : Bool → Jval
  | jnum : ℚ → Jval
  | jstr : String → Jval
  | jarr : List Jval → Jval
  | jobj : List (String × Jval) → Jval

/-- `Map.get` / `localStorage.getItem`: first entry with the given key. -/
def mapLookup {α : Type} : List (String × α) → String → Option α
  | [], _ => none
  | p :: rest, k => if p.1 = k then some p.2 else mapLookup rest k

/-- `Map.set` / `localStorage.setItem`: replace in place if the key exists,
append otherwise. -/
def mapInsert {α : Type} (l : List (String × α)) (k : String) (v : α) :
    List (String × α) :=
  if (mapLookup l k).isSome then
    l.map (fun p => if p.1 = k then (k, v) else p)
  else l ++ [(k, v)]

/-- `Map.delete`: drop the keyed entry, preserving the order of the rest. -/
def mapDelete {α : Type} : List (String × α) → String → List (String × α)
  | [], _ => []
  | p :: rest, k => if p.1 = k then mapDelete rest k else p :: mapDelete rest k

/-- `new Map(entries)`: insert the entries in order (deduplicating keys,
first position, last value). -/
def mapOfList {α : Type} (l : List (String × α)) : List (String × α) :=
  l.foldl (fun acc p => mapInsert acc p.1 p.2) []

/-- JavaScript `String.prototype.startsWith`. -/
def strStartsWith (s p : String) : Bool :=
  List.isPrefixOf p.data s.data

/-- JavaScript `String.prototype.slice(n)` (for `0 ≤ n ≤ length`). -/
def strDrop (s : String) (n : Nat) : String :=
  String.mk (s.data.drop n)

/-- Numeric value of a digit string. -/
def digitsVal (l : List Char) : Nat :=
  l.foldl (fun a c => a * 10 + (c.toNat - 48)) 0

/-- An ECMAScript array-index property key: a canonical numeric string whose
value is below 2^32 - 1 ("0" … "4294967294"; no leading zeros, no sign). -/
def arrayIdx (s : String) : Option Nat :=
  if s.data ≠ [] ∧ s.data.all Char.isDigit = true ∧
      (s = "0" ∨ s.data.head? ≠ some '0') ∧ digitsVal s.data < 4294967295 then
    some (digitsVal s.data)
  else none

/-- Stable insertion into an ascending list (helper for `jsObjOrder`). -/
def insertAsc {α : Type} (key : α → Nat) (x : α) : List α → List α
  | [] => [x]
  | y :: rest => if key x ≤ key y then x :: y :: rest else y :: insertAsc key x rest

/-- Sort ascending by a numeric key (helper for `jsObjOrder`). -/
def sortAsc {α : Type} (key : α → Nat) (l : List α) : List α :=
  l.foldr (insertAsc key) []

/-- ECMAScript own-property enumeration order of an object created from a list
of entries (`Object.fromEntries`, object literals from `JSON.parse`):
array-index keys first, in ascending numeric order, then the remaining keys
in insertion order. -/
def jsObjOrder {α : Type} (l : List (String × α)) : List (String × α) :=
  sortAsc (fun p => (arrayIdx p.1).getD 0) (l.filter (fun p => (arrayIdx p.1).isSome))
    ++ l.filter (fun p => (arrayIdx p.1).isNone)

/-- The JSON object serialized for one item (own-property order
`quantity`, `tags` — neither is an array index). -/
def itemToJval (it : Item) : Jval :=
  .jobj [("quantity", .jnum it.quantity), ("tags", .jarr (it.tags.map Jval.jstr))]

/-- `itemsToObject`: `Object.fromEntries(items.entries())` — the resulting
object's own-property order is the canonical `jsObjOrder`. -/
def itemsToObject (items : List (String × Item)) : Jval :=
  .jobj (jsObjOrder (items.map (fun p => (p.1, itemToJval p.2))))

/-- `previousVersion` as a JSON value (`null` or a string). -/
def prevToJval : Option String → Jval
  | none => .jnull
  | some h => .jstr h

/-- `versionToObject`: the object literal
`{ items: itemsToObject(v.items), previousVersion: …, timestamp: … }`
(its three keys are not array indices, so literal order is kept). -/
def versionToObject (v : Version) : Jval :=
  .jobj [("items", itemsToObject v.items),
         ("previousVersion", prevToJval v.previousVersion),
         ("timestamp", .jstr v.timestamp)]

/-- Decode a JSON array of strings (used for an item's `tags`). -/
def jvalStrList : List Jval → Option (List String)
  | [] => some []
  | .jstr s :: rest => (jvalStrList rest).map (fun l => s :: l)
  | _ :: _ => none

/-- Decode one item value: an object carrying a numeric `quantity` and a
`tags` array of strings (extra keys are ignored, as `zod`'s object schema
strips them; on the `objectToItems` read path the same shape is the one the
program itself serialized). -/
def itemOfJval : Jval → Option Item
  | .jobj fields =>
    match mapLookup fields "quantity", mapLookup fields "tags" with
    | some (.jnum q), some (.jarr ts) => (jvalStrList ts).map (fun tags => ⟨q, tags⟩)
    | _, _ => none
  | _ => none

/-- Decode a list of object entries to item-map entries, in order; a single
ill-shaped value fails the whole decode. -/
def decodeItems : List (String × Jval) → Option (List (String × Item))
  | [] => some []
  | p :: rest =>
    match itemOfJval p.2, decodeItems rest with
    | some it, some l => some ((p.1, it) :: l)
    | _, _ => none

/-- `objectToItems(o) = new Map(Object.entries(o))`: decode every entry in the
object's own-property order, then build the `Map`. -/
def itemsOfJval : Jval → Option (List (String × Item))
  | .jobj fields => (decodeItems fields).map mapOfList
  | _ => none

/-- Decode the `previousVersion` field (`null` or a hash string). -/
def prevOfJval : Jval → Option (Option String)
  | .jnull => some none
  | .jstr h => some (some h)
  | _ => none

/-- `objectToVersion`: field access by name on the parsed object. -/
def objectToVersion : Jval → Option Version
  | .jobj fields =>
    match mapLookup fields "items", mapLookup fields "previousVersion",
        mapLookup fields "timestamp" with
    | some itemsJ, some prevJ, some (.jstr ts) =>
      match itemsOfJval itemsJ, prevOfJval prevJ with
      | some items, some prev => some ⟨items, prev, ts⟩
      | _, _ => none
    | _, _, _ => none
  | _ => none

/-- The external host functions the core calls: `js-sha256`'s `sha256`,
`Date.parse`, `JSON.stringify` and `JSON.parse`. -/
structure Env where
  sha : String → String
  dparse : String → Int
  jstringify : Jval → String
  jparse : String → Option Jval

/-- `stringToVersion(s) = objectToVersion(JSON.parse(s))`. -/
def stringToVersion (E : Env) (s : String) : Option Version :=
  (E.jparse s).bind objectToVersion

/-- `versionToString(v) = JSON.stringify(versionToObject(v))`. -/
def versionToString (E : Env) (v : Version) : String :=
  E.jstringify (versionToObject v)

/-- `commaSeparatedToArray`: split on commas, trim, drop empties. -/
def commaSeparatedToArray (s : String) : List String :=
  ((s.splitOn ",").map String.trim).filter (fun t => t.length != 0)

def CURRENT_SHA_KEY : String := "current-sha"

def VERSION_KEY : String := "data-version-"

/-- The shared key/value store (`localStorage`): key ↦ stored string. -/
abbrev Store := List (String × String)

/-- Outcome of an operation: normal result, thrown exception, or exhausted
recursion fuel (the last never actually occurs, see the bounded-bootstrap
theorem). -/
inductive Res (α : Type) where
  | ok : α → Res α
  | exn : Res α
  | fuelOut : Res α
deriving DecidableEq

/-- The `data-version-*` entries of the store, in enumeration order. -/
def versionEntries (st : Store) : List (String × String) :=
  st.filter (fun p => strStartsWith p.1 VERSION_KEY)

/-- Parse every stored version string; a single failure throws. -/
def parseEntries (E : Env) : List (String × String) → Option (List (String × Version))
  | [] => some []
  | p :: rest =>
    match stringToVersion E p.2, parseEntries E rest with
    | some v, some l => some ((p.1, v) :: l)
    | _, _ => none

/-- `getAllVersions`: scan `localStorage`, keep `data-version-*` keys, parse
each value, and collect into a `Map` keyed by the full storage key. -/
def getAllVersions (E : Env) (st : Store) : Option (List (String × Version)) :=
  (parseEntries E (versionEntries st)).map mapOfList

/-- `makeVersion(items, previousVersion)` with `timestamp = now`. -/
def makeVersion (items : List (String × Item)) (prev : Option String)
    (now : String) : Version :=
  ⟨items, prev, now⟩

/-- The fixed seed item set of `makeExampleVersion`. -/
def exampleItems : List (String × Item) :=
  [("Example Item", ⟨2, ["example tag", "another example tag"]⟩),
   ("Example Item #2", ⟨20, ["example tag"]⟩)]

/-- `makeExampleVersion()`: the seed snapshot. -/
def makeExampleVersion (now : String) : Version :=
  makeVersion exampleItems none now

/-- `writeVersionToLocalStorage`: serialize, hash, store under
`data-version-<hash>`, and advance the current pointer. -/
def writeVersionToLocalStorage (E : Env) (v : Version) (st : Store) : Store :=
  let s := versionToString E v
  let h := E.sha s
  mapInsert (mapInsert st (VERSION_KEY ++ h) s) CURRENT_SHA_KEY h

/-- The repair scan's sort:
`entries.sort(([,v1],[,v2]) => Date.parse(v1.timestamp) - Date.parse(v2.timestamp))`
— an ascending stable sort by parsed timestamp. -/
def sortByTimestamp (E : Env) (l : List (String × Version)) : List (String × Version) :=
  l.mergeSort (fun a b => decide (E.dparse a.2.timestamp ≤ E.dparse b.2.timestamp))

/-- `initLocalStorage` with explicit fuel for its self-recursive bootstrap
call.  Empty store: seed the example snapshot and re-run.  Otherwise, if the
current pointer is missing or dangling, point it at the entry whose parsed
timestamp sorts first (minimum), slicing the `data-version-` prefix off its
storage key. -/
def initFuel (E : Env) (now : String) : Nat → Store → Res Store
  | 0, _ => .fuelOut
  | fuel + 1, st =>
    match getAllVersions E st with
    | none => .exn
    | some all =>
      if all.length = 0 then
        initFuel E now fuel (writeVersionToLocalStorage E (makeExampleVersion now) st)
      else
        let needRepair :=
          match mapLookup st CURRENT_SHA_KEY with
          | none => true
          | some sh => (mapLookup st (VERSION_KEY ++ sh)).isNone
        if needRepair then
          match sortByTimestamp E all with
          | [] => .exn
          | p :: _ => .ok (mapInsert st CURRENT_SHA_KEY (strDrop p.1 VERSION_KEY.length))
        else .ok st

/-- `initLocalStorage()` (fuel 2 suffices; see the bounded-bootstrap theorem). -/
def initLocalStorage (E : Env) (now : String) (st : Store) : Res Store :=
  initFuel E now 2 st

/-- `getOrCreateCurrentVersion()`: resolve, then read the current snapshot
back (the `!` assertions and a parse failure surface as exceptions). -/
def getOrCreateCurrentVersion (E : Env) (now : String) (st : Store) :
    Res (Version × String × Store) :=
  match initLocalStorage E now st with
  | .exn => .exn
  | .fuelOut => .fuelOut
  | .ok st1 =>
    match mapLookup st1 CURRENT_SHA_KEY with
    | none => .exn
    | some sha =>
      match mapLookup st1 (VERSION_KEY ++ sha) with
      | none => .exn
      | some raw =>
        match stringToVersion E raw with
        | none => .exn
        | some v => .ok (v, sha, st1)

/-- `writeItemToLocalStorage(originalItemName, newItemName, item)`: the upsert
mutation.  Returns the success flag together with the resulting store. -/
def writeItemToLocalStorage (E : Env) (now : String) (orig : Option String)
    (newName : String) (item : Item) (st : Store) : Res (Bool × Store) :=
  match getOrCreateCurrentVersion E now st with
  | .exn => .exn
  | .fuelOut => .fuelOut
  | .ok (cur, sha, st1) =>
    if (mapLookup cur.items newName).isSome &&
        (match orig with | none => true | some o => decide (newName ≠ o)) then
      .ok (false, st1)
    else if newName.length = 0 then
      .ok (false, st1)
    else
      let items1 := match orig with | none => cur.items | some o => mapDelete cur.items o
      let items2 := mapInsert items1 newName item
      .ok (true, writeVersionToLocalStorage E (makeVersion items2 (some sha) now) st1)

/-- `deleteItemFromLocalStorage(name)`. -/
def deleteItemFromLocalStorage (E : Env) (now : String) (name : String)
    (st : Store) : Res Store :=
  match getOrCreateCurrentVersion E now st with
  | .exn => .exn
  | .fuelOut => .fuelOut
  | .ok (cur, sha, st1) =>
    .ok (writeVersionToLocalStorage E
      (makeVersion (mapDelete cur.items name) (some sha) now) st1)

/-- `writeItemsToLocalStorage(items)`: the bulk-replace commit. -/
def writeItemsToLocalStorage (E : Env) (now : String)
    (items : List (String × Item)) (st : Store) : Res Store :=
  match getOrCreateCurrentVersion E now st with
  | .exn => .exn
  | .fuelOut => .fuelOut
  | .ok (_cur, sha, st1) =>
    .ok (writeVersionToLocalStorage E (makeVersion items (some sha) now) st1)

/-- Result of `parseJson` (the error message text is not modelled). -/
inductive JsonParseResult where
  | ok : List (String × Item) → JsonParseResult
  | err : JsonParseResult
deriving DecidableEq

/-- `parseJson`: `JSON.parse` the text, validate it against
`z.record(z.string(), z.object({quantity: z.number(), tags: z.array(z.string())}))`,
and build the item `Map`. -/
def parseJson (E : Env) (s : String) : JsonParseResult :=
  match E.jparse s with
  | none => .err
  | some j =>
    match itemsOfJval j with
    | some items => .ok items
    | none => .err

/-- `ItemInputRow`'s `getItem`: `q` is the result of
`Number.parseInt(itemQuantity)` (`none` = `NaN`); `q >= 0 ? q : 1`. -/
def getItem (q : Option Int) (tagsText : String) : Item :=
  { quantity := match q with
      | some n => if 0 ≤ n then (n : ℚ) else 1
      | none => 1,
    tags := commaSeparatedToArray tagsText }

/-- The full upsert path from the input row: coerce the typed quantity with
`getItem`, then `writeItemToLocalStorage`. -/
def upsertItem (E : Env) (now : String) (orig : Option String) (name : String)
    (q : Option Int) (tagsText : String) (st : Store) : Res (Bool × Store) :=
  writeItemToLocalStorage E now orig name (getItem q tagsText) st

/-- The three mutations of the engine, for statements that quantify over
"any successful mutation". -/
inductive Mutation where
  | upsert : Option String → String → Item → Mutation
  | del : String → Mutation
  | bulk : List (String × Item) → Mutation

/-- Dispatch a mutation to the function implementing it; the flag is the
upsert's success flag (`true` for the never-failing delete and for a
validated bulk replace). -/
def applyMutation (E : Env) (now : String) : Mutation → Store → Res (Bool × Store)
  | .upsert o n it, st => writeItemToLocalStorage E now o n it st
  | .del n, st =>
    match deleteItemFromLocalStorage E now n st with
    | .ok st1 => .ok (true, st1)
    | .exn => .exn
    | .fuelOut => .fuelOut
  | .bulk items, st =>
    match writeItemsToLocalStorage E now items st with
    | .ok st1 => .ok (true, st1)
    | .exn => .exn
    | .fuelOut => .fuelOut

/-- A store on which resolution is a no-op: the current pointer names a
stored, parseable snapshot, and the full scan succeeds. -/
def ResolvedAt (E : Env) (st : Store) (sha raw : String) (cur : Version) : Prop :=
  mapLookup st CURRENT_SHA_KEY = some sha ∧
  mapLookup st (VERSION_KEY ++ sha) = some raw ∧
  stringToVersion E raw = some cur ∧
  (getAllVersions E st).isSome = true

instance (E : Env) (st : Store) (sha raw : String) (cur : Version) :
    Decidable (ResolvedAt E st sha raw cur) := by
  unfold ResolvedAt; infer_instance

/-! ## A concrete serialization, for instantiating the external JSON codec

The theorems below are parametric in the `Env` of host functions; witnesses
instantiate it.  `encJ` is an executable injective-style rendering of JSON
values and `tEnv` builds an `Env` whose `JSON.parse` is a finite lookup
table, which satisfies the pointwise parse/stringify contracts the theorems
assume at the concrete values a scenario actually serializes. -/

/-- Length-prefixed rendering of a string. -/
def encStr (s : String) : String :=
  "s" ++ toString s.length ++ ";" ++ s

mutual
/-- Executable rendering of a JSON value (used to instantiate `Env.jstringify`). -/
def encJ : Jval → String
  | .jnull => "n"
  | .jbool b => if b then "T" else "F"
  | .jnum q => "q" ++ toString q.num ++ ":" ++ toString q.den ++ ";"
  | .jstr s => encStr s
  | .jarr l => "a" ++ encJList l ++ "e"
  | .jobj l => "o" ++ encJObj l ++ "e"
/-- Rendering of a JSON array's elements. -/
def encJList : List Jval → String
  | [] => ""
  | j :: rest => encJ j ++ encJList rest
/-- Rendering of a JSON object's fields. -/
def encJObj : List (String × Jval) → String
  | [] => ""
  | (k, v) :: rest => encStr k ++ encJ v ++ encJObj rest
end

/-- An `Env` whose `JSON.parse` is the finite lookup table `tbl`. -/
def tEnv (sh : String → String) (dp : String → Int)
    (tbl : List (String × Jval)) : Env :=
  { sha := sh, dparse := dp, jstringify := encJ, jparse := fun s => mapLookup tbl s }

/-! ## Association-list lemmas -/

theorem mapLookup_mem {α : Type} {l : List (String × α)} {k : String} {v : α}
    (h : mapLookup l k = some v) : (k, v) ∈ l := by
  induction l with
  | nil => simp [mapLookup] at h
  | cons p rest ih =>
    rw [mapLookup] at h
    by_cases hk : p.1 = k
    · rw [if_pos hk] at h
      have h2 : p.2 = v := Option.some.inj h
      have hp : p = (k, v) := Prod.ext_iff.mpr ⟨hk, h2⟩
      exact List.mem_cons.mpr (Or.inl hp.symm)
    · rw [if_neg hk] at h
      exact List.mem_cons_of_mem _ (ih h)

theorem mapLookup_append_none {α : Type} {a : List (String × α)} {k : String}
    (h : mapLookup a k = none) (b : List (String × α)) :
    mapLookup (a ++ b) k = mapLookup b k := by
  induction a with
  | nil => rfl
  | cons p rest ih =>
    rw [mapLookup] at h
    by_cases hk : p.1 = k
    · rw [if_pos hk] at h; simp at h
    · rw [if_neg hk] at h
      rw [List.cons_append, mapLookup, if_neg hk, ih h]

theorem mapLookup_replace_self {α : Type} {l : List (String × α)} {k : String}
    (v : α) (hs : (mapLookup l k).isSome = true) :
    mapLookup (l.map (fun p => if p.1 = k then (k, v) else p)) k = some v := by
  induction l with
  | nil => simp [mapLookup] at hs
  | cons p rest ih =>
    rw [List.map_cons]
    by_cases hk : p.1 = k
    · rw [if_pos hk, mapLookup, if_pos rfl]
    · rw [if_neg hk, mapLookup, if_neg hk]
      rw [mapLookup, if_neg hk] at hs
      exact ih hs

theorem mapLookup_mapInsert_self {α : Type} (l : List (String × α)) (k : String)
    (v : α) : mapLookup (mapInsert l k v) k = some v := by
  unfold mapInsert
  by_cases hs : (mapLookup l k).isSome
  · rw [if_pos hs]
    exact mapLookup_replace_self v hs
  · rw [if_neg hs]
    rw [mapLookup_append_none (Option.not_isSome_iff_eq_none.mp hs) _]
    rw [mapLookup, if_pos rfl]

theorem mapLookup_replace_ne {α : Type} {l : List (String × α)} {k k' : String}
    (v : α) (hne : k' ≠ k) :
    mapLookup (l.map (fun p => if p.1 = k then (k, v) else p)) k' = mapLookup l k' := by
  induction l with
  | nil => rfl
  | cons p rest ih =>
    rw [List.map_cons, mapLookup, mapLookup]
    by_cases hk : p.1 = k
    · have h1 : ¬ (k = k') := fun h => hne h.symm
      have h2 : ¬ (p.1 = k') := by rw [hk]; exact h1
      rw [if_pos hk, if_neg h2]
      have : ((k, v) : String × α).1 = k := rfl
      rw [if_neg (by rw [this]; exact h1), ih]
    · rw [if_neg hk]
      by_cases hk' : p.1 = k'
      · rw [if_pos hk', if_pos hk']
      · rw [if_neg hk', if_neg hk', ih]

theorem mapLookup_mapInsert_ne {α : Type} (l : List (String × α)) {k k' : String}
    (v : α) (hne : k' ≠ k) : mapLookup (mapInsert l k v) k' = mapLookup l k' := by
  unfold mapInsert
  by_cases hs : (mapLookup l k).isSome
  · rw [if_pos hs]
    exact mapLookup_replace_ne v hne
  · rw [if_neg hs]
    induction l with
    | nil =>
      have h1 : ¬ (k = k') := fun h => hne h.symm
      simp [mapLookup, h1]
    | cons p rest ih =>
      by_cases hk' : p.1 = k'
      · rw [List.cons_append, mapLookup, mapLookup, if_pos hk', if_pos hk']
      · rw [List.cons_append, mapLookup, mapLookup, if_neg hk', if_neg hk']
        apply ih
        intro habs
        rw [mapLookup] at hs
        by_cases hpk : p.1 = k
        · rw [if_pos hpk] at hs; simp at hs
        · rw [if_neg hpk] at hs; exact hs habs

theorem mapDelete_of_absent {α : Type} {l : List (String × α)} {k : String}
    (h : mapLookup l k = none) : mapDelete l k = l := by
  induction l with
  | nil => rfl
  | cons p rest ih =>
    rw [mapLookup] at h
    by_cases hk : p.1 = k
    · rw [if_pos hk] at h
      simp at h
    · rw [if_neg hk] at h
      rw [mapDelete, if_neg hk, ih h]

theorem mapInsert_ne_nil {α : Type} {l : List (String × α)} (k : String) (v : α) :
    mapInsert l k v ≠ [] := by
  unfold mapInsert
  by_cases hs : (mapLookup l k).isSome
  · rw [if_pos hs]
    intro h
    rw [List.map_eq_nil_iff] at h
    rw [h] at hs
    simp [mapLookup] at hs
  · rw [if_neg hs]
    simp

theorem foldl_mapInsert_ne_nil {α : Type} (l : List (String × α)) :
    ∀ acc : List (String × α), acc ≠ [] →
      l.foldl (fun acc p => mapInsert acc p.1 p.2) acc ≠ [] := by
  induction l with
  | nil => intro acc h; simpa using h
  | cons q rest ih =>
    intro acc _
    rw [List.foldl_cons]
    exact ih _ (mapInsert_ne_nil _ _)

theorem mapOfList_ne_nil {α : Type} {l : List (String × α)} (h : l ≠ []) :
    mapOfList l ≠ [] := by
  unfold mapOfList
  cases l with
  | nil => exact absurd rfl h
  | cons p rest =>
    rw [List.foldl_cons]
    exact foldl_mapInsert_ne_nil rest _ (mapInsert_ne_nil _ _)

theorem mapOfList_self {α : Type} {l : List (String × α)}
    (h : (l.map Prod.fst).Nodup) : mapOfList l = l := by
  unfold mapOfList
  suffices H : ∀ (l : List (String × α)) (acc : List (String × α)),
      (l.map Prod.fst).Nodup → (∀ k ∈ l.map Prod.fst, mapLookup acc k = none) →
      l.foldl (fun acc p => mapInsert acc p.1 p.2) acc = acc ++ l by
    have := H l [] h (by intro k _; rfl)
    simpa using this
  intro l
  induction l with
  | nil => intro acc _ _; simp
  | cons p rest ih =>
    intro acc hnd hnone
    rw [List.foldl_cons]
    have hpa : mapLookup acc p.1 = none := hnone p.1 (by simp)
    have hins : mapInsert acc p.1 p.2 = acc ++ [(p.1, p.2)] := by
      unfold mapInsert
      rw [if_neg (by rw [hpa]; simp)]
    rw [hins]
    have hnd' : (rest.map Prod.fst).Nodup := by
      rw [List.map_cons, List.nodup_cons] at hnd
      exact hnd.2
    have hmem : p.1 ∉ rest.map Prod.fst := by
      rw [List.map_cons, List.nodup_cons] at hnd
      exact hnd.1
    have hnone' : ∀ k ∈ rest.map Prod.fst,
        mapLookup (acc ++ [(p.1, p.2)]) k = none := by
      intro k hk
      rw [mapLookup_append_none (hnone k (by simp [hk])) _]
      rw [mapLookup, if_neg, mapLookup]
      intro he
      exact hmem (he ▸ hk)
    rw [ih (acc ++ [(p.1, p.2)]) hnd' hnone']
    simp

/-! ## Store-shape lemmas -/

theorem strStartsWith_append (p s : String) : strStartsWith (p ++ s) p = true := by
  unfold strStartsWith
  rw [String.data_append]
  induction p.data with
  | nil => simp [List.isPrefixOf]
  | cons c cs ih => simp [List.isPrefixOf, ih]

theorem strStartsWith_CSK : strStartsWith CURRENT_SHA_KEY VERSION_KEY = false := by
  decide

theorem CSK_ne_VK (h : String) : CURRENT_SHA_KEY ≠ VERSION_KEY ++ h := by
  intro he
  have := congrArg String.length he
  rw [String.length_append] at this
  have hc : CURRENT_SHA_KEY.length = 11 := by decide
  have hv : VERSION_KEY.length = 13 := by decide
  omega

theorem VK_append_inj {a b : String} (h : VERSION_KEY ++ a = VERSION_KEY ++ b) :
    a = b := by
  have := congrArg String.data h
  rw [String.data_append, String.data_append] at this
  exact String.ext (List.append_cancel_left this)

theorem strDrop_VK_append (h : String) :
    strDrop (VERSION_KEY ++ h) VERSION_KEY.length = h := by
  unfold strDrop
  rw [String.data_append]
  have hl : VERSION_KEY.length = VERSION_KEY.data.length := rfl
  rw [hl, List.drop_left]

theorem versionEntries_replace_not_vk {st : Store} {k : String} (v : String)
    (h : strStartsWith k VERSION_KEY = false) :
    versionEntries (st.map (fun p => if p.1 = k then (k, v) else p)) =
      versionEntries st := by
  unfold versionEntries
  induction st with
  | nil => rfl
  | cons p rest ih =>
    rw [List.map_cons, List.filter_cons, List.filter_cons]
    by_cases hk : p.1 = k
    · have hp : strStartsWith p.1 VERSION_KEY = false := by rw [hk]; exact h
      rw [if_pos hk]
      rw [if_neg (by simp [h]), if_neg (by simp [hp])]
      exact ih
    · rw [if_neg hk]
      by_cases hp : strStartsWith p.1 VERSION_KEY = true
      · rw [if_pos (by simp [hp]), if_pos (by simp [hp]), ih]
      · rw [if_neg (by simpa using hp), if_neg (by simpa using hp)]
        exact ih

theorem versionEntries_mapInsert_not_vk {st : Store} {k : String} (v : String)
    (h : strStartsWith k VERSION_KEY = false) :
    versionEntries (mapInsert st k v) = versionEntries st := by
  unfold mapInsert
  by_cases hs : (mapLookup st k).isSome
  · rw [if_pos hs]
    exact versionEntries_replace_not_vk v h
  · rw [if_neg hs]
    unfold versionEntries
    rw [List.filter_append, List.filter_cons, if_neg (by simp [h])]
    simp

theorem versionEntries_mapInsert_vk_fresh {st : Store} {k : String} (v : String)
    (hk : strStartsWith k VERSION_KEY = true) (h : mapLookup st k = none) :
    versionEntries (mapInsert st k v) = versionEntries st ++ [(k, v)] := by
  unfold mapInsert
  rw [if_neg (by rw [h]; simp)]
  unfold versionEntries
  rw [List.filter_append, List.filter_cons, if_pos (by simp [hk])]
  simp

theorem versionEntries_eq_nil {st : Store} (h : versionEntries st = []) :
    ∀ p ∈ st, strStartsWith p.1 VERSION_KEY = false := by
  intro p hp
  have := List.filter_eq_nil_iff.mp h p hp
  simpa using this

theorem parseEntries_length {E : Env} {l : List (String × String)}
    {l' : List (String × Version)} (h : parseEntries E l = some l') :
    l'.length = l.length := by
  induction l generalizing l' with
  | nil =>
    rw [parseEntries] at h
    cases h
    rfl
  | cons p rest ih =>
    rw [parseEntries] at h
    cases hv : stringToVersion E p.2 with
    | none => rw [hv] at h; simp at h
    | some v =>
      rw [hv] at h
      cases hr : parseEntries E rest with
      | none => rw [hr] at h; simp at h
      | some lr =>
        rw [hr] at h
        cases h
        simp [ih hr]

theorem getAllVersions_ne_nil {E : Env} {st : Store} {k raw : String}
    {all : List (String × Version)}
    (hk : mapLookup st k = some raw) (hpre : strStartsWith k VERSION_KEY = true)
    (hall : getAllVersions E st = some all) : all ≠ [] := by
  unfold getAllVersions at hall
  cases hp : parseEntries E (versionEntries st) with
  | none => rw [hp] at hall; simp at hall
  | some l =>
    rw [hp] at hall
    simp only [Option.map_some'] at hall
    have hmem : (k, raw) ∈ versionEntries st := by
      unfold versionEntries
      rw [List.mem_filter]
      exact ⟨mapLookup_mem hk, by simpa using hpre⟩
    have hlen : l.length = (versionEntries st).length := parseEntries_length hp
    have hvne : versionEntries st ≠ [] := by
      intro he
      rw [he] at hmem
      simp at hmem
    have hlne : l ≠ [] := by
      intro he
      rw [he] at hlen
      exact hvne (List.eq_nil_of_length_eq_zero hlen.symm)
    rw [← Option.some.inj hall]
    exact mapOfList_ne_nil hlne

/-! ## Resolver lemmas -/

theorem initFuel_step {E : Env} {st : Store} {all : List (String × Version)}
    (now : String) (fuel : Nat) (hall : getAllVersions E st = some all) :
    initFuel E now (fuel + 1) st =
      if all.length = 0 then
        initFuel E now fuel (writeVersionToLocalStorage E (makeExampleVersion now) st)
      else
        if (match mapLookup st CURRENT_SHA_KEY with
            | none => true
            | some sh => (mapLookup st (VERSION_KEY ++ sh)).isNone) then
          match sortByTimestamp E all with
          | [] => .exn
          | p :: _ => .ok (mapInsert st CURRENT_SHA_KEY (strDrop p.1 VERSION_KEY.length))
        else .ok st := by
  rw [initFuel, hall]

theorem initLocalStorage_resolved {E : Env} {st : Store} {sha raw : String}
    {cur : Version} (now : String) (h : ResolvedAt E st sha raw cur) :
    initLocalStorage E now st = .ok st := by
  obtain ⟨h1, h2, _h3, h4⟩ := h
  obtain ⟨all, hall⟩ := Option.isSome_iff_exists.mp h4
  have hne : all ≠ [] := getAllVersions_ne_nil h2 (strStartsWith_append _ _) hall
  have hlen : ¬ all.length = 0 := fun hl => hne (List.eq_nil_of_length_eq_zero hl)
  have : initLocalStorage E now st = initFuel E now (1 + 1) st := rfl
  rw [this, initFuel_step now 1 hall, if_neg hlen, h1]
  simp [h2]

theorem getOrCreate_resolved {E : Env} {st : Store} {sha raw : String}
    {cur : Version} (now : String) (h : ResolvedAt E st sha raw cur) :
    getOrCreateCurrentVersion E now st = .ok (cur, sha, st) := by
  have hi := initLocalStorage_resolved now h
  obtain ⟨h1, h2, h3, _h4⟩ := h
  unfold getOrCreateCurrentVersion
  rw [hi]
  simp [h1, h2, h3]

theorem initFuel_exn {E : Env} {st : Store} (now : String) (fuel : Nat)
    (h : getAllVersions E st = none) : initFuel E now (fuel + 1) st = .exn := by
  rw [initFuel, h]

theorem getAllVersions_nil {E : Env} {st : Store}
    (hall : getAllVersions E st = some []) : versionEntries st = [] := by
  unfold getAllVersions at hall
  cases hp : parseEntries E (versionEntries st) with
  | none => rw [hp] at hall; simp at hall
  | some l =>
    rw [hp] at hall
    simp only [Option.map_some'] at hall
    have hl : l = [] := by
      by_contra hco
      exact mapOfList_ne_nil hco (Option.some.inj hall)
    rw [hl] at hp
    exact List.eq_nil_of_length_eq_zero (parseEntries_length hp).symm

theorem writeVersion_lookup_CSK (E : Env) (v : Version) (st : Store) :
    mapLookup (writeVersionToLocalStorage E v st) CURRENT_SHA_KEY =
      some (E.sha (versionToString E v)) := by
  unfold writeVersionToLocalStorage
  exact mapLookup_mapInsert_self _ _ _

theorem writeVersion_lookup_self (E : Env) (v : Version) (st : Store) :
    mapLookup (writeVersionToLocalStorage E v st)
        (VERSION_KEY ++ E.sha (versionToString E v)) =
      some (versionToString E v) := by
  unfold writeVersionToLocalStorage
  rw [mapLookup_mapInsert_ne _ _ (fun he => CSK_ne_VK _ he.symm)]
  exact mapLookup_mapInsert_self _ _ _

theorem versionEntries_writeVersion_of_nil {E : Env} {v : Version} {st : Store}
    (h : versionEntries st = []) :
    versionEntries (writeVersionToLocalStorage E v st) =
      [(VERSION_KEY ++ E.sha (versionToString E v), versionToString E v)] := by
  unfold writeVersionToLocalStorage
  have hfresh :
      mapLookup st (VERSION_KEY ++ E.sha (versionToString E v)) = none := by
    cases hl : mapLookup st (VERSION_KEY ++ E.sha (versionToString E v)) with
    | none => rfl
    | some w =>
      have hmem := mapLookup_mem hl
      have hfalse := versionEntries_eq_nil h _ hmem
      rw [strStartsWith_append] at hfalse
      exact absurd hfalse (by simp)
  rw [versionEntries_mapInsert_not_vk _ strStartsWith_CSK,
      versionEntries_mapInsert_vk_fresh _ (strStartsWith_append _ _) hfresh, h]
  simp

theorem getAllVersions_writeVersion_of_nil {E : Env} {v v' : Version} {st : Store}
    (h : versionEntries st = [])
    (hp : stringToVersion E (versionToString E v) = some v') :
    getAllVersions E (writeVersionToLocalStorage E v st) =
      some [(VERSION_KEY ++ E.sha (versionToString E v), v')] := by
  unfold getAllVersions
  rw [versionEntries_writeVersion_of_nil h]
  simp only [parseEntries, hp]
  simp [mapOfList, mapInsert, mapLookup]

theorem initFuel_nonempty_eq {E : Env} {st : Store} {all : List (String × Version)}
    (now : String) (fuel : Nat) (hall : getAllVersions E st = some all)
    (hlen : ¬ all.length = 0) :
    initFuel E now (fuel + 1) st = initFuel E now 1 st ∧
      initFuel E now (fuel + 1) st ≠ Res.fuelOut := by
  have hstep := initFuel_step now fuel hall
  have hstep0 := initFuel_step now 0 hall
  rw [if_neg hlen] at hstep hstep0
  constructor
  · rw [hstep, ← hstep0]
  · rw [hstep]
    split
    · split <;> simp
    · simp

theorem getAllVersions_of_entries_nil {E : Env} {st : Store}
    (h : versionEntries st = []) : getAllVersions E st = some [] := by
  unfold getAllVersions
  rw [h]
  rfl

/-- The seed snapshot decodes back from its own serialized object: its item
names are not array indices, so no reordering occurs. -/
theorem objectToVersion_example (now : String) :
    objectToVersion (versionToObject (makeExampleVersion now)) =
      some (makeExampleVersion now) := rfl

/-- Claim C9 — the self-recursive bootstrap is bounded: running the resolver
with any fuel beyond 2 gives the same outcome as fuel 2, and fuel 2 never
runs out (the store is non-empty after a single seeding, so the recursive
call takes the non-empty branch). -/
theorem initFuel_bounded : ∀ (E : Env) (now : String) (st : Store) (fuel : Nat),
    initFuel E now (2 + fuel) st = initFuel E now 2 st ∧
      initFuel E now 2 st ≠ Res.fuelOut := by
  intro E now st fuel
  have h21 : initFuel E now (2 + fuel) st = initFuel E now (fuel + 1 + 1) st := by
    have : 2 + fuel = fuel + 1 + 1 := by omega
    rw [this]
  have h2eq : initFuel E now 2 st = initFuel E now (1 + 1) st := rfl
  cases hall : getAllVersions E st with
  | none =>
    constructor
    · rw [h21, h2eq, initFuel_exn now (fuel + 1) hall, initFuel_exn now 1 hall]
    · rw [h2eq, initFuel_exn now 1 hall]
      simp
  | some all =>
    by_cases hlen : all.length = 0
    · have hnil : all = [] := List.eq_nil_of_length_eq_zero hlen
      subst hnil
      have hse : versionEntries st = [] := getAllVersions_nil hall
      have hstep1 : initFuel E now (fuel + 1 + 1) st =
          initFuel E now (fuel + 1)
            (writeVersionToLocalStorage E (makeExampleVersion now) st) := by
        rw [initFuel_step now (fuel + 1) hall, if_pos hlen]
      have hstep2 : initFuel E now (1 + 1) st =
          initFuel E now 1
            (writeVersionToLocalStorage E (makeExampleVersion now) st) := by
        rw [initFuel_step now 1 hall, if_pos hlen]
      have hK : mapLookup (writeVersionToLocalStorage E (makeExampleVersion now) st)
          (VERSION_KEY ++ E.sha (versionToString E (makeExampleVersion now))) =
          some (versionToString E (makeExampleVersion now)) :=
        writeVersion_lookup_self E _ st
      cases hall1 : getAllVersions E
          (writeVersionToLocalStorage E (makeExampleVersion now) st) with
      | none =>
        constructor
        · rw [h21, h2eq, hstep1, hstep2, initFuel_exn now fuel hall1,
            initFuel_exn now 0 hall1]
        · rw [h2eq, hstep2, initFuel_exn now 0 hall1]
          simp
      | some all1 =>
        have hne1 : all1 ≠ [] :=
          getAllVersions_ne_nil hK (strStartsWith_append _ _) hall1
        have hlen1 : ¬ all1.length = 0 := fun hl =>
          hne1 (List.eq_nil_of_length_eq_zero hl)
        obtain ⟨heqf, hnof⟩ := initFuel_nonempty_eq now fuel hall1 hlen1
        obtain ⟨heq0, hno0⟩ := initFuel_nonempty_eq now 0 hall1 hlen1
        constructor
        · rw [h21, h2eq, hstep1, hstep2, heqf, heq0]
        · rw [h2eq, hstep2, ← heq0]
          exact hno0
    · obtain ⟨heqf, _⟩ := initFuel_nonempty_eq now (fuel + 1) hall hlen
      obtain ⟨heq0, hno0⟩ := initFuel_nonempty_eq now 1 hall hlen
      constructor
      · rw [h21, h2eq, heqf, heq0]
      · rw [h2eq]
        exact hno0

/-- Claim C3 — bootstrap determinism: resolving against a store with no
`data-version-*` entry seeds exactly the fixed example snapshot
(`previousVersion = null`, the two documented example items), commits it,
points the current pointer at its hash, and returns it.  The hypothesis is
the JSON round-trip contract at the single value the bootstrap serializes. -/
theorem getOrCreate_empty_bootstrap (E : Env) (now : String) (st : Store)
    (hempty : versionEntries st = [])
    (hp : E.jparse (versionToString E (makeExampleVersion now)) =
      some (versionToObject (makeExampleVersion now))) :
    getOrCreateCurrentVersion E now st =
      .ok (makeExampleVersion now,
           E.sha (versionToString E (makeExampleVersion now)),
           writeVersionToLocalStorage E (makeExampleVersion now) st) ∧
    mapLookup (writeVersionToLocalStorage E (makeExampleVersion now) st)
        CURRENT_SHA_KEY =
      some (E.sha (versionToString E (makeExampleVersion now))) ∧
    (makeExampleVersion now).previousVersion = none ∧
    (makeExampleVersion now).items = exampleItems := by
  have hsv : stringToVersion E (versionToString E (makeExampleVersion now)) =
      some (makeExampleVersion now) := by
    unfold stringToVersion
    rw [hp]
    simp [objectToVersion_example]
  have hall : getAllVersions E st = some [] := getAllVersions_of_entries_nil hempty
  have hall1 : getAllVersions E
      (writeVersionToLocalStorage E (makeExampleVersion now) st) =
      some [(VERSION_KEY ++ E.sha (versionToString E (makeExampleVersion now)),
             makeExampleVersion now)] :=
    getAllVersions_writeVersion_of_nil hempty hsv
  have hCSK := writeVersion_lookup_CSK E (makeExampleVersion now) st
  have hK := writeVersion_lookup_self E (makeExampleVersion now) st
  have hinit : initLocalStorage E now st =
      .ok (writeVersionToLocalStorage E (makeExampleVersion now) st) := by
    have h2eq : initLocalStorage E now st = initFuel E now (1 + 1) st := rfl
    have hz : ([] : List (String × Version)).length = 0 := rfl
    rw [h2eq, initFuel_step now 1 hall, if_pos hz,
        initFuel_step now 0 hall1, if_neg (by simp), hCSK]
    simp [hK]
  refine ⟨?_, hCSK, rfl, rfl⟩
  unfold getOrCreateCurrentVersion
  rw [hinit]
  simp [hCSK, hK, hsv]

/-- Claim C1 — repair: on a store that holds snapshots but whose current
pointer is absent or names no stored snapshot, `initLocalStorage` sets the
current pointer to the storage key of the snapshot with the strictly minimum
parsed timestamp, with the `data-version-` prefix sliced off (i.e. to that
snapshot's hash). -/
theorem initLocalStorage_repair_min (E : Env) (now : String) (st : Store)
    (all : List (String × Version)) (k0 : String) (v0 : Version)
    (hall : getAllVersions E st = some all)
    (hmem : (k0, v0) ∈ all)
    (hmin : ∀ p ∈ all, p ≠ (k0, v0) →
      E.dparse v0.timestamp < E.dparse p.2.timestamp)
    (hdang : (match mapLookup st CURRENT_SHA_KEY with
              | none => true
              | some sh => (mapLookup st (VERSION_KEY ++ sh)).isNone) = true) :
    initLocalStorage E now st =
      .ok (mapInsert st CURRENT_SHA_KEY (strDrop k0 VERSION_KEY.length)) := by
  have hne : all ≠ [] := fun h => by rw [h] at hmem; simp at hmem
  have hlen : ¬ all.length = 0 := fun hl => hne (List.eq_nil_of_length_eq_zero hl)
  have h2eq : initLocalStorage E now st = initFuel E now (1 + 1) st := rfl
  rw [h2eq, initFuel_step now 1 hall, if_neg hlen, if_pos hdang]
  have hperm := List.mergeSort_perm all
    (fun a b => decide (E.dparse a.2.timestamp ≤ E.dparse b.2.timestamp))
  have hsorted := @List.sorted_mergeSort _
    (fun a b => decide (E.dparse a.2.timestamp ≤ E.dparse b.2.timestamp))
    (by
      intro a b c h1 h2
      simp only [decide_eq_true_eq] at h1 h2 ⊢
      omega)
    (by
      intro a b
      simp only [Bool.or_eq_true, decide_eq_true_eq]
      omega)
    all
  cases hsort : sortByTimestamp E all with
  | nil =>
    exfalso
    unfold sortByTimestamp at hsort
    have := hperm.length_eq
    rw [hsort] at this
    exact hne (List.eq_nil_of_length_eq_zero this.symm)
  | cons q rest =>
    unfold sortByTimestamp at hsort
    have hq : q = (k0, v0) := by
      by_contra hqe
      have hqmem : q ∈ all := hperm.mem_iff.mp (by rw [hsort]; simp)
      have hk0mem : (k0, v0) ∈ q :: rest := by
        rw [← hsort]
        exact hperm.mem_iff.mpr hmem
      have hk0rest : (k0, v0) ∈ rest := by
        cases List.mem_cons.mp hk0mem with
        | inl h => exact absurd h.symm hqe
        | inr h => exact h
      rw [hsort] at hsorted
      have hle := (List.pairwise_cons.mp hsorted).1 _ hk0rest
      simp only [decide_eq_true_eq] at hle
      have hlt := hmin q hqmem hqe
      omega
    subst hq
    rfl

/-! ## Mutation-engine theorems -/

/-- Claim C5 — uniqueness enforcement: upserting a fresh item (`orig = null`)
under a name the current snapshot already maps rejects with the
duplicate-name alert, commits nothing, and returns the store unchanged (so
the current snapshot's entry for that name is untouched). -/
theorem upsert_duplicate_rejected (E : Env) (now : String) (st : Store)
    (sha raw : String) (cur : Version) (nm : String) (item item2 : Item)
    (hres : ResolvedAt E st sha raw cur)
    (hdup : mapLookup cur.items nm = some item) :
    writeItemToLocalStorage E now none nm item2 st = .ok (false, st) := by
  unfold writeItemToLocalStorage
  rw [getOrCreate_resolved now hres]
  simp [hdup]

/-- Claim C6 (amended) — rename-to-self: for an item whose name is non-empty,
`upsertItem(X, X, item2)` passes the duplicate check (because
`newName == oldName`), commits, and the new snapshot maps `X` to `item2`. -/
theorem upsert_rename_self (E : Env) (now : String) (st : Store)
    (sha raw : String) (cur : Version) (nm : String) (item item2 : Item)
    (hres : ResolvedAt E st sha raw cur)
    (hhas : mapLookup cur.items nm = some item)
    (hnz : ¬ nm.length = 0) :
    writeItemToLocalStorage E now (some nm) nm item2 st =
      .ok (true, writeVersionToLocalStorage E
        (makeVersion (mapInsert (mapDelete cur.items nm) nm item2) (some sha) now) st) ∧
    mapLookup (mapInsert (mapDelete cur.items nm) nm item2) nm = some item2 := by
  constructor
  · unfold writeItemToLocalStorage
    rw [getOrCreate_resolved now hres]
    simp [hhas, hnz]
  · exact mapLookup_mapInsert_self _ _ _

/-- Claim C7 — quantity coercion: a typed quantity whose `parseInt` result is
not a non-negative integer (`NaN` or negative) is silently committed as `1`
by the upsert path. -/
theorem upsert_quantity_coerced (E : Env) (now : String) (st : Store)
    (sha raw : String) (cur : Version) (nm : String) (q : Option Int)
    (tagsText : String)
    (hres : ResolvedAt E st sha raw cur)
    (hfresh : mapLookup cur.items nm = none)
    (hnz : ¬ nm.length = 0)
    (hbad : q = none ∨ ∃ n, q = some n ∧ n < 0) :
    upsertItem E now none nm q tagsText st =
      .ok (true, writeVersionToLocalStorage E
        (makeVersion (mapInsert cur.items nm ⟨1, commaSeparatedToArray tagsText⟩)
          (some sha) now) st) := by
  have hq : getItem q tagsText = ⟨1, commaSeparatedToArray tagsText⟩ := by
    rcases hbad with h | ⟨n, hqn, hneg⟩
    · subst h; rfl
    · subst hqn
      unfold getItem
      simp [not_le.mpr hneg]
  unfold upsertItem
  rw [hq]
  unfold writeItemToLocalStorage
  rw [getOrCreate_resolved now hres]
  simp [hfresh, hnz]

/-- Claim C8 — delete never fails: on any resolvable store it commits a new
snapshot whose items are the current ones minus the named entry, whose
`previousVersion` is the prior current hash and whose timestamp is fresh;
deleting an absent name leaves the item map identical. -/
theorem delete_never_fails (E : Env) (now : String) (st : Store)
    (sha raw : String) (cur : Version) (name : String)
    (hres : ResolvedAt E st sha raw cur) :
    deleteItemFromLocalStorage E now name st =
      .ok (writeVersionToLocalStorage E
        (makeVersion (mapDelete cur.items name) (some sha) now) st) ∧
    (mapLookup cur.items name = none → mapDelete cur.items name = cur.items) := by
  constructor
  · unfold deleteItemFromLocalStorage
    rw [getOrCreate_resolved now hres]
  · exact fun h => mapDelete_of_absent h

/-- Claim C10 — the bulk-replace path: any JSON text whose parsed value
matches the record schema (string keys — the empty string included — and
`{quantity: number, tags: string[]}` values, with no sign or integrality
restriction on `quantity`) is accepted by `parseJson` and committed verbatim
by `writeItemsToLocalStorage`. -/
theorem bulk_replace_accepts (E : Env) (now : String) (st : Store)
    (sha raw : String) (cur : Version) (s : String) (j : Jval)
    (items : List (String × Item))
    (hres : ResolvedAt E st sha raw cur)
    (hjp : E.jparse s = some j)
    (hval : itemsOfJval j = some items) :
    parseJson E s = .ok items ∧
    writeItemsToLocalStorage E now items st =
      .ok (writeVersionToLocalStorage E (makeVersion items (some sha) now) st) := by
  constructor
  · unfold parseJson
    rw [hjp]
    simp [hval]
  · unfold writeItemsToLocalStorage
    rw [getOrCreate_resolved now hres]

/-- After any commit, every previously stored snapshot is still retrievable
by its key with its exact bytes, provided the hash is collision-free and the
pre-state satisfied content addressing at that key. -/
theorem writeVersion_preserves_key (E : Env) {st : Store} (v' : Version)
    (hinj : Function.Injective E.sha) {k v : String}
    (hk : strStartsWith k VERSION_KEY = true)
    (haddr : E.sha v = strDrop k VERSION_KEY.length)
    (hold : mapLookup st k = some v) :
    mapLookup (writeVersionToLocalStorage E v' st) k = some v := by
  unfold writeVersionToLocalStorage
  have hkcsk : k ≠ CURRENT_SHA_KEY := by
    intro he
    rw [he, strStartsWith_CSK] at hk
    simp at hk
  rw [mapLookup_mapInsert_ne _ _ hkcsk]
  by_cases hcol : VERSION_KEY ++ E.sha (versionToString E v') = k
  · have hdrop : strDrop k VERSION_KEY.length = E.sha (versionToString E v') := by
      rw [← hcol, strDrop_VK_append]
    have hstr : versionToString E v' = v := hinj (by rw [haddr, hdrop])
    rw [← hcol, mapLookup_mapInsert_self, hstr]
  · rw [mapLookup_mapInsert_ne _ _ (fun he => hcol he.symm)]
    exact hold

/-- Special case of `writeVersion_preserves_key` at the prior current key. -/
theorem writeVersion_preserves (E : Env) {st : Store} {sha raw : String}
    (v' : Version) (hinj : Function.Injective E.sha) (haddr : E.sha raw = sha)
    (hold : mapLookup st (VERSION_KEY ++ sha) = some raw) :
    mapLookup (writeVersionToLocalStorage E v' st) (VERSION_KEY ++ sha) =
      some raw :=
  writeVersion_preserves_key E v' hinj (strStartsWith_append _ _)
    (by rw [strDrop_VK_append]; exact haddr) hold

/-- Claim C4 — chain growth: every successful mutation commits a snapshot
whose `previousVersion` is the prior current hash, advances the current
pointer to the new snapshot's hash, and leaves the prior snapshot stored
unchanged under its key; more generally no content-addressed stored snapshot
is deleted or overwritten with different content (given the spec's
collision-freedom assumption on the hash). -/
theorem mutation_chain_growth (E : Env) (now : String) (m : Mutation)
    (st : Store) (sha raw : String) (cur : Version) (st2 : Store)
    (hres : ResolvedAt E st sha raw cur)
    (hinj : Function.Injective E.sha)
    (haddr : E.sha raw = sha)
    (happ : applyMutation E now m st = .ok (true, st2)) :
    ∃ v' : Version,
      v'.previousVersion = some sha ∧
      st2 = writeVersionToLocalStorage E v' st ∧
      mapLookup st2 CURRENT_SHA_KEY = some (E.sha (versionToString E v')) ∧
      mapLookup st2 (VERSION_KEY ++ sha) = some raw ∧
      (∀ k v, mapLookup st k = some v → strStartsWith k VERSION_KEY = true →
        E.sha v = strDrop k VERSION_KEY.length → mapLookup st2 k = some v) := by
  have hold : mapLookup st (VERSION_KEY ++ sha) = some raw := hres.2.1
  cases m with
  | upsert o n it =>
    unfold applyMutation at happ
    simp only [] at happ
    unfold writeItemToLocalStorage at happ
    rw [getOrCreate_resolved now hres] at happ
    simp only [] at happ
    split at happ
    · exact absurd happ (by simp)
    · split at happ
      · exact absurd happ (by simp)
      · cases happ
        cases o with
        | none =>
          exact ⟨makeVersion (mapInsert cur.items n it) (some sha) now,
            rfl, rfl, writeVersion_lookup_CSK E _ st,
            writeVersion_preserves E _ hinj haddr hold,
            fun k v hkv hkp hka => writeVersion_preserves_key E _ hinj hkp hka hkv⟩
        | some oo =>
          exact ⟨makeVersion (mapInsert (mapDelete cur.items oo) n it)
              (some sha) now,
            rfl, rfl, writeVersion_lookup_CSK E _ st,
            writeVersion_preserves E _ hinj haddr hold,
            fun k v hkv hkp hka => writeVersion_preserves_key E _ hinj hkp hka hkv⟩
  | del n =>
    unfold applyMutation at happ
    simp only [] at happ
    have hw : deleteItemFromLocalStorage E now n st =
        .ok (writeVersionToLocalStorage E
          (makeVersion (mapDelete cur.items n) (some sha) now) st) := by
      unfold deleteItemFromLocalStorage
      rw [getOrCreate_resolved now hres]
    rw [hw] at happ
    simp only [] at happ
    cases happ
    refine ⟨makeVersion (mapDelete cur.items n) (some sha) now,
      rfl, rfl, ?_, ?_, ?_⟩
    · exact writeVersion_lookup_CSK E _ st
    · exact writeVersion_preserves E _ hinj haddr hold
    · exact fun k v hkv hkp hka => writeVersion_preserves_key E _ hinj hkp hka hkv
  | bulk items =>
    unfold applyMutation at happ
    simp only [] at happ
    have hw : writeItemsToLocalStorage E now items st =
        .ok (writeVersionToLocalStorage E (makeVersion items (some sha) now) st) := by
      unfold writeItemsToLocalStorage
      rw [getOrCreate_resolved now hres]
    rw [hw] at happ
    simp only [] at happ
    cases happ
    refine ⟨makeVersion items (some sha) now, rfl, rfl, ?_, ?_, ?_⟩
    · exact writeVersion_lookup_CSK E _ st
    · exact writeVersion_preserves E _ hinj haddr hold
    · exact fun k v hkv hkp hka => writeVersion_preserves_key E _ hinj hkp hka hkv

/-! ## Serialization round-trip -/

theorem jvalStrList_map (l : List String) :
    jvalStrList (l.map Jval.jstr) = some l := by
  induction l with
  | nil => rfl
  | cons s rest ih =>
    rw [List.map_cons, jvalStrList, ih]
    rfl

theorem itemOfJval_itemToJval (it : Item) :
    itemOfJval (itemToJval it) = some it := by
  unfold itemToJval itemOfJval
  simp [mapLookup, jvalStrList_map]

theorem decodeItems_encode (l : List (String × Item)) :
    decodeItems (l.map (fun q => (q.1, itemToJval q.2))) = some l := by
  induction l with
  | nil => rfl
  | cons q rest ih =>
    rw [List.map_cons, decodeItems, itemOfJval_itemToJval, ih]

theorem filter_isSome_map {α β : Type} (f : α → β) (l : List (String × α)) :
    (l.map (fun q => (q.1, f q.2))).filter (fun p => (arrayIdx p.1).isSome) =
      (l.filter (fun p => (arrayIdx p.1).isSome)).map (fun q => (q.1, f q.2)) := by
  induction l with
  | nil => rfl
  | cons p rest ih =>
    rw [List.map_cons, List.filter_cons, List.filter_cons]
    by_cases h : (arrayIdx p.1).isSome <;> simp [h, ih]

theorem filter_isNone_map {α β : Type} (f : α → β) (l : List (String × α)) :
    (l.map (fun q => (q.1, f q.2))).filter (fun p => (arrayIdx p.1).isNone) =
      (l.filter (fun p => (arrayIdx p.1).isNone)).map (fun q => (q.1, f q.2)) := by
  induction l with
  | nil => rfl
  | cons p rest ih =>
    rw [List.map_cons, List.filter_cons, List.filter_cons]
    by_cases h : (arrayIdx p.1).isNone <;> simp [h, ih]

theorem insertAsc_map {α β : Type} (f : α → β) (key : β → Nat) (x : α)
    (l : List α) :
    insertAsc key (f x) (l.map f) = (insertAsc (fun a => key (f a)) x l).map f := by
  induction l with
  | nil => rfl
  | cons y rest ih =>
    rw [List.map_cons, insertAsc, insertAsc]
    by_cases h : key (f x) ≤ key (f y)
    · rw [if_pos h, if_pos h, List.map_cons, List.map_cons]
    · rw [if_neg h, if_neg h, List.map_cons, ih]

theorem sortAsc_map {α β : Type} (f : α → β) (key : β → Nat) (l : List α) :
    sortAsc key (l.map f) = (sortAsc (fun a => key (f a)) l).map f := by
  unfold sortAsc
  induction l with
  | nil => rfl
  | cons y rest ih =>
    rw [List.map_cons, List.foldr_cons, List.foldr_cons, ih, insertAsc_map]

theorem jsObjOrder_map {α β : Type} (f : α → β) (l : List (String × α)) :
    jsObjOrder (l.map (fun q => (q.1, f q.2))) =
      (jsObjOrder l).map (fun q => (q.1, f q.2)) := by
  unfold jsObjOrder
  rw [filter_isSome_map, filter_isNone_map, sortAsc_map, List.map_append]

theorem insertAsc_perm {α : Type} (key : α → Nat) (x : α) (l : List α) :
    (insertAsc key x l).Perm (x :: l) := by
  induction l with
  | nil => exact List.Perm.refl _
  | cons y rest ih =>
    rw [insertAsc]
    by_cases h : key x ≤ key y
    · rw [if_pos h]
    · rw [if_neg h]
      exact (ih.cons y).trans (List.Perm.swap x y rest)

theorem sortAsc_perm {α : Type} (key : α → Nat) (l : List α) :
    (sortAsc key l).Perm l := by
  unfold sortAsc
  induction l with
  | nil => exact List.Perm.refl _
  | cons y rest ih =>
    rw [List.foldr_cons]
    exact (insertAsc_perm key y _).trans (ih.cons y)

theorem jsObjOrder_perm {α : Type} (l : List (String × α)) :
    (jsObjOrder l).Perm l := by
  unfold jsObjOrder
  have h1 := (sortAsc_perm (fun p : String × α => (arrayIdx p.1).getD 0)
    (l.filter (fun p => (arrayIdx p.1).isSome))).append_right
    (l.filter (fun p => (arrayIdx p.1).isNone))
  refine h1.trans ?_
  have heq : l.filter (fun p => (arrayIdx p.1).isNone) =
      l.filter (fun p => !(arrayIdx p.1).isSome) := by
    apply List.filter_congr
    intro x _
    cases arrayIdx x.1 <;> rfl
  rw [heq]
  exact List.filter_append_perm _ l

/-- Claim C2 (amended) — serialization round-trip: deserializing the
serialization of a valid snapshot restores `previousVersion`, `timestamp`
and the item map up to the canonical JS own-property reordering of its
names; it restores the snapshot exactly when the items are already in
canonical order (in particular whenever no item name is an array-index
string).  The hypothesis is the JSON round-trip contract at the serialized
value, plus uniqueness of item names (they are keys of a `Map`). -/
theorem stringToVersion_versionToString (E : Env) (s : Version)
    (hp : E.jparse (versionToString E s) = some (versionToObject s))
    (hnd : (s.items.map Prod.fst).Nodup) :
    stringToVersion E (versionToString E s) =
      some ⟨jsObjOrder s.items, s.previousVersion, s.timestamp⟩ ∧
    (jsObjOrder s.items = s.items →
      stringToVersion E (versionToString E s) = some s) := by
  have hnd' : ((jsObjOrder s.items).map Prod.fst).Nodup := by
    have hperm := (jsObjOrder_perm s.items).map Prod.fst
    exact hperm.nodup_iff.mpr hnd
  have hitems : itemsOfJval (itemsToObject s.items) = some (jsObjOrder s.items) := by
    unfold itemsToObject
    simp only [itemsOfJval]
    rw [jsObjOrder_map, decodeItems_encode]
    simp [mapOfList_self hnd']
  have hprev : prevOfJval (prevToJval s.previousVersion) = some s.previousVersion := by
    cases s.previousVersion <;> rfl
  have h1 : stringToVersion E (versionToString E s) =
      some ⟨jsObjOrder s.items, s.previousVersion, s.timestamp⟩ := by
    unfold stringToVersion
    rw [hp]
    simp only [Option.some_bind]
    unfold versionToObject objectToVersion
    simp [mapLookup, hitems, hprev]
  refine ⟨h1, fun hc => ?_⟩
  rw [h1, hc]

/-- Concrete snapshot whose item names include the array-index string `"0"`
listed after a non-index name: serialization reorders it to the front. -/
def cexVersion : Version := ⟨[("b", ⟨1, []⟩), ("0", ⟨2, []⟩)], none, "T0"⟩

/-- The serialized object of `cexVersion`. -/
def cexJval : Jval := versionToObject cexVersion

/-- A concrete environment whose `JSON.parse` correctly inverts
`JSON.stringify` on `cexVersion`'s serialization. -/
def cexEnv : Env := tEnv (fun s => s) (fun _ => 0) [(encJ cexJval, cexJval)]

/-- Claim C2 (counterexample) — at `cexVersion` the JSON layer round-trips
faithfully and the item names are unique, yet
`stringToVersion (versionToString s)` differs from `s`: the item named `"0"`
moves to the front of the map, which is observable (it changes the canonical
serialization, hence the hash, of the reparsed snapshot). -/
theorem stringToVersion_versionToString_cex :
    cexEnv.jparse (versionToString cexEnv cexVersion) =
      some (versionToObject cexVersion) ∧
    ((cexVersion.items.map Prod.fst).Nodup) ∧
    stringToVersion cexEnv (versionToString cexEnv cexVersion) ≠ some cexVersion := by
  refine ⟨rfl, by decide, by decide⟩

/-! ## Concrete scenarios instantiating the external environment -/

/-- A resolved one-item store's snapshot (item `"X"`). -/
def vA : Version := ⟨[("X", ⟨3, ["t"]⟩)], none, "TA"⟩

/-- Serialized object of `vA`. -/
def jvalA : Jval := versionToObject vA

/-- Stored text of `vA`. -/
def rawA : String := encJ jvalA

/-- Environment for the `vA` scenarios: identity hash, table-based parse. -/
def envA : Env := tEnv (fun s => s) (fun _ => 0) [(rawA, jvalA)]

/-- A resolved store holding exactly `vA`, current pointer valid. -/
def stA : Store := [(VERSION_KEY ++ rawA, rawA), (CURRENT_SHA_KEY, rawA)]

/-- A snapshot containing an item whose name is the empty string (reachable
through the bulk JSON import, which does not reject empty names). -/
def vEmptyName : Version := ⟨[("", ⟨1, []⟩)], none, "T6"⟩

/-- Serialized object of `vEmptyName`. -/
def jvalEmptyName : Jval := versionToObject vEmptyName

/-- Stored text of `vEmptyName`. -/
def rawEmptyName : String := encJ jvalEmptyName

/-- Environment for the empty-name scenario. -/
def envEmptyName : Env := tEnv (fun s => s) (fun _ => 0) [(rawEmptyName, jvalEmptyName)]

/-- A resolved store holding exactly `vEmptyName`. -/
def stEmptyName : Store :=
  [(VERSION_KEY ++ rawEmptyName, rawEmptyName), (CURRENT_SHA_KEY, rawEmptyName)]

/-- Claim C6 (counterexample) — rename-to-self fails for the empty name: with
the current snapshot containing an item named `""`, the upsert
`(orig = "", new = "", item2)` passes the duplicate check (rename-to-self)
but is then rejected by the empty-name check, returning `false` and
committing nothing — the claim's universal "succeeds and updates" is false
at `X = ""`. -/
theorem upsert_rename_self_empty_cex :
    ResolvedAt envEmptyName stEmptyName rawEmptyName rawEmptyName vEmptyName ∧
    mapLookup vEmptyName.items "" = some ⟨1, []⟩ ∧
    writeItemToLocalStorage envEmptyName "NOW" (some "") "" ⟨2, []⟩ stEmptyName =
      .ok (false, stEmptyName) := by
  exact ⟨by decide, by decide, by decide⟩

/-- Snapshot with the earlier timestamp `"T1"` (repair scenario). -/
def vT1 : Version := ⟨[("a", ⟨1, []⟩)], none, "T1"⟩

/-- Snapshot with the later timestamp `"T2"` (repair scenario). -/
def vT2 : Version := ⟨[("b", ⟨2, []⟩)], none, "T2"⟩

/-- Environment for the repair scenario: `Date.parse` maps `"T1"` before
`"T2"`. -/
def envRepair : Env :=
  tEnv (fun s => s) (fun s => if s = "T1" then 1 else 2)
    [(encJ (versionToObject vT1), versionToObject vT1),
     (encJ (versionToObject vT2), versionToObject vT2)]

/-- Store with two snapshots (the later-timestamped one enumerated first)
and no current pointer at all. -/
def stRepair : Store :=
  [(VERSION_KEY ++ "A", encJ (versionToObject vT2)),
   (VERSION_KEY ++ "B", encJ (versionToObject vT1))]

/-- The parsed scan of `stRepair`. -/
def allRepair : List (String × Version) :=
  [(VERSION_KEY ++ "A", vT2), (VERSION_KEY ++ "B", vT1)]

/-- Witness for claim C1: two stored snapshots with timestamps T1 < T2 and no
current pointer; repair sets the pointer to the T1 (earliest) snapshot's
hash `"B"`, although that snapshot is enumerated second. -/
theorem initLocalStorage_repair_min_witness :
    getAllVersions envRepair stRepair = some allRepair ∧
    (VERSION_KEY ++ "B", vT1) ∈ allRepair ∧
    mapLookup stRepair CURRENT_SHA_KEY = none ∧
    initLocalStorage envRepair "NOW" stRepair =
      .ok (mapInsert stRepair CURRENT_SHA_KEY
        (strDrop (VERSION_KEY ++ "B") VERSION_KEY.length)) :=
  ⟨by decide, by decide, by decide,
    initLocalStorage_repair_min envRepair "NOW" stRepair allRepair
      (VERSION_KEY ++ "B") vT1 (by decide) (by decide) (by decide) (by decide)⟩

/-- Witness for the amended claim C2, at the snapshot `vA` (whose single item
name is not an array index, so the round trip is exact). -/
theorem stringToVersion_versionToString_witness :
    envA.jparse (versionToString envA vA) = some (versionToObject vA) ∧
    (vA.items.map Prod.fst).Nodup ∧
    (stringToVersion envA (versionToString envA vA) =
        some ⟨jsObjOrder vA.items, vA.previousVersion, vA.timestamp⟩ ∧
      (jsObjOrder vA.items = vA.items →
        stringToVersion envA (versionToString envA vA) = some vA)) :=
  ⟨rfl, by decide, stringToVersion_versionToString envA vA rfl (by decide)⟩

/-- Environment for the bootstrap scenario: parses the serialized seed. -/
def envSeed : Env :=
  tEnv (fun s => s) (fun _ => 0)
    [(encJ (versionToObject (makeExampleVersion "NOW3")),
      versionToObject (makeExampleVersion "NOW3"))]

/-- A store carrying no `data-version-*` entry at all. -/
def stEmpty : Store := [("junk-key", "junk")]

set_option maxRecDepth 8000 in
/-- Witness for claim C3: resolving against a store with no snapshot commits
the fixed seed snapshot and returns it with the current pointer on its hash. -/
theorem getOrCreate_empty_bootstrap_witness :
    versionEntries stEmpty = [] ∧
    (getOrCreateCurrentVersion envSeed "NOW3" stEmpty =
        .ok (makeExampleVersion "NOW3",
             envSeed.sha (versionToString envSeed (makeExampleVersion "NOW3")),
             writeVersionToLocalStorage envSeed (makeExampleVersion "NOW3") stEmpty) ∧
      mapLookup (writeVersionToLocalStorage envSeed (makeExampleVersion "NOW3") stEmpty)
          CURRENT_SHA_KEY =
        some (envSeed.sha (versionToString envSeed (makeExampleVersion "NOW3"))) ∧
      (makeExampleVersion "NOW3").previousVersion = none ∧
      (makeExampleVersion "NOW3").items = exampleItems) :=
  ⟨by decide, getOrCreate_empty_bootstrap envSeed "NOW3" stEmpty (by decide) rfl⟩

/-- Witness for claim C4: deleting `"X"` from the resolved store `stA`
(identity hash, content-addressed pre-state) grows the chain. -/
theorem mutation_chain_growth_witness :
    ResolvedAt envA stA rawA rawA vA ∧
    envA.sha rawA = rawA ∧
    applyMutation envA "NB" (.del "X") stA =
      .ok (true, writeVersionToLocalStorage envA
        (makeVersion (mapDelete vA.items "X") (some rawA) "NB") stA) ∧
    (∃ v' : Version,
      v'.previousVersion = some rawA ∧
      writeVersionToLocalStorage envA
          (makeVersion (mapDelete vA.items "X") (some rawA) "NB") stA =
        writeVersionToLocalStorage envA v' stA ∧
      mapLookup (writeVersionToLocalStorage envA
          (makeVersion (mapDelete vA.items "X") (some rawA) "NB") stA)
          CURRENT_SHA_KEY =
        some (envA.sha (versionToString envA v')) ∧
      mapLookup (writeVersionToLocalStorage envA
          (makeVersion (mapDelete vA.items "X") (some rawA) "NB") stA)
          (VERSION_KEY ++ rawA) =
        some rawA ∧
      (∀ k v, mapLookup stA k = some v → strStartsWith k VERSION_KEY = true →
        envA.sha v = strDrop k VERSION_KEY.length →
        mapLookup (writeVersionToLocalStorage envA
          (makeVersion (mapDelete vA.items "X") (some rawA) "NB") stA) k =
          some v)) :=
  ⟨by decide, rfl, by decide,
    mutation_chain_growth envA "NB" (.del "X") stA rawA rawA vA _
      (by decide) (fun a b h => h) rfl (by decide)⟩

/-- Witness for claim C5: upserting a fresh item under the existing name
`"X"` is rejected and the store is unchanged. -/
theorem upsert_duplicate_rejected_witness :
    ResolvedAt envA stA rawA rawA vA ∧
    mapLookup vA.items "X" = some ⟨3, ["t"]⟩ ∧
    writeItemToLocalStorage envA "NC" none "X" ⟨9, []⟩ stA = .ok (false, stA) :=
  ⟨by decide, by decide,
    upsert_duplicate_rejected envA "NC" stA rawA rawA vA "X" ⟨3, ["t"]⟩ ⟨9, []⟩
      (by decide) (by decide)⟩

/-- Witness for the amended claim C6: rename-to-self of the (non-empty) name
`"X"` succeeds and maps `"X"` to the new item. -/
theorem upsert_rename_self_witness :
    ResolvedAt envA stA rawA rawA vA ∧
    mapLookup vA.items "X" = some ⟨3, ["t"]⟩ ∧
    ¬ ("X" : String).length = 0 ∧
    (writeItemToLocalStorage envA "ND" (some "X") "X" ⟨5, ["u"]⟩ stA =
        .ok (true, writeVersionToLocalStorage envA
          (makeVersion (mapInsert (mapDelete vA.items "X") "X" ⟨5, ["u"]⟩)
            (some rawA) "ND") stA) ∧
      mapLookup (mapInsert (mapDelete vA.items "X") "X" ⟨5, ["u"]⟩) "X" =
        some ⟨5, ["u"]⟩) :=
  ⟨by decide, by decide, by decide,
    upsert_rename_self envA "ND" stA rawA rawA vA "X" ⟨3, ["t"]⟩ ⟨5, ["u"]⟩
      (by decide) (by decide) (by decide)⟩

/-- Witness for claim C7: `upsertItem(null, "Y", {quantity: -5, tags: []})`
commits quantity `1`. -/
theorem upsert_quantity_coerced_witness :
    ResolvedAt envA stA rawA rawA vA ∧
    mapLookup vA.items "Y" = none ∧
    upsertItem envA "NE" none "Y" (some (-5)) "" stA =
      .ok (true, writeVersionToLocalStorage envA
        (makeVersion (mapInsert vA.items "Y" ⟨1, commaSeparatedToArray ""⟩)
          (some rawA) "NE") stA) :=
  ⟨by decide, by decide,
    upsert_quantity_coerced envA "NE" stA rawA rawA vA "Y" (some (-5)) ""
      (by decide) (by decide) (by decide) (Or.inr ⟨-5, rfl, by decide⟩)⟩

/-- Witness for claim C8: deleting the absent name `"Z"` still commits a new
snapshot with an identical item map. -/
theorem delete_never_fails_witness :
    ResolvedAt envA stA rawA rawA vA ∧
    mapLookup vA.items "Z" = none ∧
    (deleteItemFromLocalStorage envA "NF" "Z" stA =
        .ok (writeVersionToLocalStorage envA
          (makeVersion (mapDelete vA.items "Z") (some rawA) "NF") stA) ∧
      (mapLookup vA.items "Z" = none → mapDelete vA.items "Z" = vA.items)) :=
  ⟨by decide, by decide,
    delete_never_fails envA "NF" stA rawA rawA vA "Z" (by decide)⟩

/-- The negative non-integer quantity `-5/2`, as an explicit reduced
rational. -/
def negFiveHalves : ℚ := ⟨-5, 2, by decide, by decide⟩

/-- A bulk-import JSON object with an empty item name and a negative,
non-integer quantity. -/
def bulkJval : Jval :=
  .jobj [("", .jobj [("quantity", .jnum negFiveHalves), ("tags", .jarr [])])]

/-- The imported text of `bulkJval`. -/
def bulkText : String := encJ bulkJval

/-- The item map `bulkJval` decodes to. -/
def bulkItems : List (String × Item) := [("", ⟨negFiveHalves, []⟩)]

/-- Environment for the bulk-import scenario: parses both the stored current
snapshot and the imported text. -/
def envBulk : Env :=
  tEnv (fun s => s) (fun _ => 0) [(rawA, jvalA), (bulkText, bulkJval)]

/-- Witness for claim C10: the JSON import accepts an item map with an empty
string name and quantity `-5/2` and commits it verbatim. -/
theorem bulk_replace_accepts_witness :
    ResolvedAt envBulk stA rawA rawA vA ∧
    itemsOfJval bulkJval = some bulkItems ∧
    (parseJson envBulk bulkText = .ok bulkItems ∧
      writeItemsToLocalStorage envBulk "NG" bulkItems stA =
        .ok (writeVersionToLocalStorage envBulk
          (makeVersion bulkItems (some rawA) "NG") stA)) :=
  ⟨by decide, by decide,
    bulk_replace_accepts envBulk "NG" stA rawA rawA vA bulkText bulkJval bulkItems
      (by decide) rfl (by decide)⟩
